import Mathlib

/-!
Shallow embedding of the core of the quantify-scheduler repository and proofs
about it.  Python floats are modelled as rationals (`ℚ`), complex sample
buffers as lists of `(real, imaginary)` pairs, numpy arrays as lists, and the
mutable Python objects as explicit values (with a small reference store where
aliasing matters).  Fallible methods return the post-call state together with
an `Option String` holding the raised error message, mirroring the fact that a
Python exception propagates while `self` keeps the mutations made so far.
-/

namespace QuantifyScheduler

-- The arithmetic of `ℚ` is `@[irreducible]` in the library, which blocks the
-- elaborator-side evaluation used by `decide` on the concrete witnesses below;
-- restoring the default reducibility (scoped to this file) lets those
-- evaluations run.  Kernel-side checking is unaffected.
attribute [local semireducible] Rat.add Rat.mul Rat.sub Rat.inv

/-! ### Waveform utilities (`quantify_scheduler/helpers/waveforms.py`) -/

/-- Modelled from the spec: `closest_number_ceil` (from the helpers math module,
whose source is not available) returns the smallest multiple of `granularity`
that is at least `size` ("pad with zeros to the next multiple of
`granularity`"). -/
def closest_number_ceil (size granularity : ℕ) : ℕ :=
  ((size + granularity - 1) / granularity) * granularity

/-- `resize_waveform` from `helpers/waveforms.py`: an empty waveform becomes
`granularity` zeros; a waveform whose length is a multiple of `granularity` is
returned unchanged; otherwise it is zero-padded up to the next multiple. -/
def resize_waveform (waveform : List ℚ) (granularity : ℕ) : List ℚ :=
  let size := waveform.length
  if size = 0 then List.replicate granularity 0
  else if size % granularity = 0 then waveform
  else waveform ++ List.replicate (closest_number_ceil size granularity - size) 0

/-- `np.max (np.abs l))` over a list of samples.  NumPy raises on an empty
array; the theorems therefore assume nonempty input (on `[]` this returns
`0`). -/
def maxAbs (l : List ℚ) : ℚ :=
  (l.map (fun x => |x|)).foldr max 0

/-- `normalize_waveform_data` from `helpers/waveforms.py`.  The complex buffer
is a list of `(real, imaginary)` pairs; the numpy expression
`norm_data_re + 1.0j * norm_data_im` is represented element-wise.  Each path is
divided by its peak magnitude unless that peak is zero, in which case the path
becomes all zeros, exactly as in the source. -/
def normalize_waveform_data (data : List (ℚ × ℚ)) : List (ℚ × ℚ) × ℚ × ℚ :=
  let amp_real := maxAbs (data.map Prod.fst)
  let amp_imag := maxAbs (data.map Prod.snd)
  let rescaled := data.map (fun p =>
    (if amp_real ≠ 0 then p.1 / amp_real else 0,
     if amp_imag ≠ 0 then p.2 / amp_imag else 0))
  (rescaled, amp_real, amp_imag)

/-! ### Reserved-waveform synthesizer (`quantify/scheduler/backends/qblox/non_generic.py`) -/

/-- Sum of the real parts of a complex buffer. -/
def sumRe (l : List (ℚ × ℚ)) : ℚ := (l.map Prod.fst).foldr (· + ·) 0

/-- Sum of the imaginary parts of a complex buffer. -/
def sumIm (l : List (ℚ × ℚ)) : ℚ := (l.map Prod.snd).foldr (· + ·) 0

/-- NumPy orders complex values lexicographically (real part first, then
imaginary part), so `np.sum(wf_data) < 0` on the complex buffer means exactly
this predicate. -/
def complexSumNeg (l : List (ℚ × ℚ)) : Prop :=
  sumRe l < 0 ∨ (sumRe l = 0 ∧ sumIm l < 0)

instance (l : List (ℚ × ℚ)) : Decidable (complexSumNeg l) := by
  unfold complexSumNeg; infer_instance

/-- `_stitched_square_pulse_waveform_data` from `non_generic.py`.  The sampling
of the waveform function over the stitching-duration window
(`np.linspace` + `exec_waveform_function`) is abstracted as the input buffer
`wf`; the decidable core — normalization followed by a joint sign flip of both
paths' data and both peak values when the net signed area is negative — is
translated directly from the source. -/
def stitched_square_pulse_waveform_data (wf : List (ℚ × ℚ)) :
    List (ℚ × ℚ) × ℚ × ℚ :=
  let r := normalize_waveform_data wf
  if complexSumNeg r.1 then
    (r.1.map (fun p => (-p.1, -p.2)), -r.2.1, -r.2.2)
  else r

/-! ### Operation strategy factory
(`quantify_scheduler/backends/qblox/operation_handling/factory.py`) -/

/-- Accumulation policy for repeated acquisitions (`enums.BinMode`). -/
inductive BinMode
  | average
  | append
deriving DecidableEq

/-- Sequencer path configuration (`qblox/enums.IoMode`). -/
inductive IoMode
  | real
  | imag
  | complexIo
deriving DecidableEq

/-- The flattened per-operation record `OpInfo` from `backends/types/qblox.py`.
The `data` dict is modelled by the fields the factory reads: membership tests
(`"acq_channel" in data` …) become `Bool` fields, lookups become values, with
`data["wf_func"] is None` and a missing key both modelled as `none`. -/
structure OpInfo where
  name : String
  timing : ℚ
  duration : ℚ
  hasAcqChannel : Bool
  hasBinMode : Bool
  protocol : String
  bin_mode : BinMode
  hasOffsetPath0 : Bool
  hasOffsetPath1 : Bool
  instruction : String
  port : Option String
  hasPhaseShift : Bool
  hasResetClockPhase : Bool
  hasClockFreqNew : Bool
  wf_func : Option String
deriving DecidableEq

/-- `OpInfo.is_acquisition`: `"acq_channel" in data or "bin_mode" in data`. -/
def OpInfo.is_acquisition (op : OpInfo) : Bool :=
  op.hasAcqChannel || op.hasBinMode

/-- `OpInfo.is_offset_instruction`:
`"offset_path_0" in data or "offset_path_1" in data`. -/
def OpInfo.is_offset_instruction (op : OpInfo) : Bool :=
  op.hasOffsetPath0 || op.hasOffsetPath1

/-- `OpInfo.is_parameter_update`: `data.get("instruction", "") == "upd_param"`
(the `q1asm_instructions.UPDATE_PARAMETERS` constant). -/
def OpInfo.is_parameter_update (op : OpInfo) : Bool :=
  op.instruction == "upd_param"

/-- `OpInfo.__repr__`: `"Acquisition"`/`"Pulse"` with the operation name and its
time window.  The rendering of the `data` dict body is abstracted; the identity
(name, timing) of the operation is reproduced. -/
def OpInfo.reprStr (op : OpInfo) : String :=
  (if op.is_acquisition then "Acquisition " else "Pulse ") ++ op.name
    ++ " (t=" ++ toString op.timing ++ " to "
    ++ toString (op.timing + op.duration) ++ ")"

/-- The closed set of execution strategies the factory can instantiate. -/
inductive Strategy
  | squareAcquisition
  | weightedAcquisition
  | triggerCountAcquisition
  | awgOffset
  | updateParameter
  | ncoPhaseShift
  | ncoResetClockPhase
  | ncoSetClockFrequency
  | idle
  | stitchedSquarePulse
  | staircasePulse
  | markerPulse
  | genericPulse
deriving DecidableEq

/-- The message of the `ValueError` raised for a Trace acquisition with APPEND
bin mode; it embeds `repr(operation_info)`. -/
def trace_append_error_msg (op : OpInfo) : String :=
  "Trace acquisition does not support APPEND bin mode.\n\n"
    ++ op.reprStr ++ " caused this exception to occur."

/-- `_get_acquisition_strategy` from `factory.py`. -/
def get_acquisition_strategy (op : OpInfo) : Except String Strategy :=
  if op.protocol = "Trace" ∨ op.protocol = "SSBIntegrationComplex"
      ∨ op.protocol = "ThresholdedAcquisition" then
    if op.protocol = "Trace" ∧ op.bin_mode = BinMode.append then
      Except.error (trace_append_error_msg op)
    else Except.ok Strategy.squareAcquisition
  else if op.protocol = "WeightedIntegratedComplex" then
    Except.ok Strategy.weightedAcquisition
  else if op.protocol = "TriggerCount" then
    Except.ok Strategy.triggerCountAcquisition
  else
    Except.error ("Unknown acquisition protocol \"" ++ op.protocol
      ++ "\" encountered in Qblox backend when processing acquisition "
      ++ op.reprStr ++ ".")

/-- `_get_pulse_strategy` from `factory.py`.  Note the `elif` chain of the
source: when `instruction_generated_pulses_enabled` is true and the waveform
function is not one of the two reserved shapes, control falls through past the
`MarkerPulse` test to the final `GenericPulseStrategy` return. -/
def get_pulse_strategy (op : OpInfo)
    (instruction_generated_pulses_enabled : Bool) (_ioMode : IoMode) :
    Except String Strategy :=
  if op.is_offset_instruction then Except.ok Strategy.awgOffset
  else if op.is_parameter_update then Except.ok Strategy.updateParameter
  else if op.port = none then
    if op.hasPhaseShift then Except.ok Strategy.ncoPhaseShift
    else if op.hasResetClockPhase then Except.ok Strategy.ncoResetClockPhase
    else if op.hasClockFreqNew then Except.ok Strategy.ncoSetClockFrequency
    else Except.ok Strategy.idle
  else if instruction_generated_pulses_enabled then
    if op.wf_func = some "quantify_scheduler.waveforms.square" then
      Except.ok Strategy.stitchedSquarePulse
    else if op.wf_func = some "quantify_scheduler.waveforms.staircase" then
      Except.ok Strategy.staircasePulse
    else Except.ok Strategy.genericPulse
  else if op.name = "MarkerPulse" then Except.ok Strategy.markerPulse
  else Except.ok Strategy.genericPulse

/-- `get_operation_strategy` from `factory.py`. -/
def get_operation_strategy (op : OpInfo)
    (instruction_generated_pulses_enabled : Bool) (ioMode : IoMode) :
    Except String Strategy :=
  if op.is_acquisition then get_acquisition_strategy op
  else get_pulse_strategy op instruction_generated_pulses_enabled ioMode

/-! ### Stitched-pulse builder (`quantify_scheduler/operations/stitched_pulse.py`)

Python `Operation` objects are mutable and passed by reference, which matters
for the deep-copy-before-mutate behaviour of `add_pulse`.  They are therefore
kept in an explicit reference store (`List Operation`); a reference is an index
into it, `deepcopy` appends a fresh cell, and mutation rewrites the referenced
cell.  The `_VoltageOffsetInfo` dataclass is a plain value in the source and is
modelled as one here. -/

/-- One entry of an operation's `pulse_info` list (the fields the builder
touches: `t0`, `duration`, `port`, `clock`). -/
structure PulseInfoEntry where
  t0 : ℚ
  duration : ℚ
  port : Option String
  clock : Option String
deriving DecidableEq, Inhabited

/-- A schedule `Operation` as seen by `StitchedPulseBuilder.add_pulse`: the
guard predicates it tests and the `pulse_info` list it copies and shifts. -/
structure Operation where
  validAcquisition : Bool
  validGate : Bool
  logicInfo : List Unit
  hasVoltageOffset : Bool
  pulse_info : List PulseInfoEntry
deriving DecidableEq, Inhabited

/-- The `_VoltageOffsetInfo` dataclass: `duration = none` is an open-ended
offset (Python `None`). -/
structure VoltageOffsetInfo where
  path_0 : ℚ
  path_1 : ℚ
  t0 : ℚ
  duration : Option ℚ
deriving DecidableEq, Inhabited

/-- The `VoltageOffset` operation as constructed by
`create_operation_from_info` inside `_build_voltage_offset_operations`. -/
structure VoltageOffset where
  offset_path_0 : ℚ
  offset_path_1 : ℚ
  duration : ℚ
  port : Option String
  clock : Option String
  t0 : ℚ
deriving DecidableEq, Inhabited

/-- The mutable state of a `StitchedPulseBuilder`; `pulses` holds references
into the operation store. -/
structure StitchedPulseBuilder where
  port : Option String
  clock : Option String
  t0 : ℚ
  pulses : List ℕ
  offsets : List VoltageOffsetInfo
deriving DecidableEq, Inhabited

/-- `numpy.isclose` with its default tolerances
(`rtol = 1e-05`, `atol = 1e-08`): `|a - b| ≤ atol + rtol * |b|`. -/
def np_isclose (a b : ℚ) : Prop :=
  |a - b| ≤ 1 / 100000000 + (1 / 100000) * |b|

instance (a b : ℚ) : Decidable (np_isclose a b) := by
  unfold np_isclose; infer_instance

/-- `offs.t0 + (offs.duration or 0.0)`: the end used by the builder, with an
open-ended offset contributing duration `0`. -/
def voEnd (o : VoltageOffsetInfo) : ℚ :=
  o.t0 + o.duration.getD 0

/-- Sort key of `sorted(offsets, key=lambda op: op.t0)`. -/
def leT0 (a b : VoltageOffsetInfo) : Prop :=
  a.t0 ≤ b.t0

instance : DecidableRel leT0 := fun a b => by
  unfold leT0; infer_instance

instance : IsTotal VoltageOffsetInfo leT0 :=
  ⟨fun a b => le_total a.t0 b.t0⟩

instance : IsTrans VoltageOffsetInfo leT0 :=
  ⟨fun _ _ _ h1 h2 => le_trans h1 h2⟩

/-- The `operation_end` property: the maximum of `t0 + duration` over all
pulse-info entries of all added pulses and over all offsets (open-ended
offsets counting duration `0`), or `0.0` for an empty builder.  `store` is the
operation store the pulse references point into. -/
def operation_end (store : List Operation) (b : StitchedPulseBuilder) : ℚ :=
  let max_from_pulses :=
    if b.pulses.isEmpty then 0
    else ((b.pulses.map (fun r =>
      (store.getD r default).pulse_info.map (fun pi => pi.t0 + pi.duration))).flatten).foldr max 0
  let max_from_offsets :=
    if b.offsets.isEmpty then 0
    else (b.offsets.map voEnd).foldr max 0
  max max_from_pulses max_from_offsets

/-- The loop body of `_overlaps_with_existing_offsets`: scanning the sorted
offset list, report `True` as soon as the next offset starts strictly before
the current one ends. -/
def hasAdjacentOverlap : List VoltageOffsetInfo → Bool
  | a :: b :: rest => decide (b.t0 < voEnd a) || hasAdjacentOverlap (b :: rest)
  | _ => false

/-- `_overlaps_with_existing_offsets`: append the candidate offset, stable-sort
by `t0` (Python's `list.sort`; `List.insertionSort` is likewise stable) and
scan adjacent pairs. -/
def overlaps_with_existing_offsets (b : StitchedPulseBuilder)
    (offset : VoltageOffsetInfo) : Bool :=
  hasAdjacentOverlap (List.insertionSort leT0 (b.offsets ++ [offset]))

/-- Modelled from the spec: the hardware grid unit (`GRID_TIME`, in ns) of the
qblox constants module, whose source is not available; used for the default
minimum offset duration `GRID_TIME * 1e-9` seconds. -/
def GRID_TIME : ℚ := 4

/-- The default `min_duration` argument of `add_voltage_offset`:
`GRID_TIME * 1e-9`. -/
def default_min_duration : ℚ := GRID_TIME / 1000000000

/-- The guard `duration is not None and duration < min_duration` of
`add_voltage_offset`. -/
def duration_below_min (duration : Option ℚ) (min_duration : ℚ) : Bool :=
  match duration with
  | some d => decide (d < min_duration)
  | none => false

/-- `StitchedPulseBuilder.add_voltage_offset`.  Returns the builder state after
the call together with the raised error message, if any: the duration check
(`ValueError`) runs first, then the overlap check (`RuntimeError`), and only
if both pass is the offset appended. -/
def add_voltage_offset (store : List Operation) (b : StitchedPulseBuilder)
    (path_0 path_1 : ℚ) (duration : Option ℚ) (rel_time : ℚ) (append : Bool)
    (min_duration : ℚ) : StitchedPulseBuilder × Option String :=
  let rel_time := if append then rel_time + operation_end store b else rel_time
  if duration_below_min duration min_duration then
    (b, some ("Minimum duration of a voltage offset is "
      ++ toString min_duration ++ " ns"))
  else
    let offset : VoltageOffsetInfo := ⟨path_0, path_1, rel_time, duration⟩
    if overlaps_with_existing_offsets b offset then
      (b, some "Tried to add offset that overlaps with existing offsets in the StitchedPulse.")
    else ({ b with offsets := b.offsets ++ [offset] }, none)

/-- `StitchedPulseBuilder.add_pulse`.  The four guards raise before any
mutation; then the operation is deep-copied (a fresh cell appended to the
store), the copy's `t0` values are shifted by `operation_end` when appending,
and a reference to the copy is pushed onto the builder's pulse list.  Returns
`(store, builder, raised error)` after the call. -/
def add_pulse (store : List Operation) (b : StitchedPulseBuilder)
    (pulseRef : ℕ) (append : Bool) :
    List Operation × StitchedPulseBuilder × Option String :=
  let pulse := store.getD pulseRef default
  if pulse.validAcquisition then
    (store, b, some "Cannot add acquisition to StitchedPulse. Please add it directly to the schedule instead.")
  else if pulse.validGate then
    (store, b, some "Cannot add gate to StitchedPulse. Please add it directly to the schedule instead.")
  else if pulse.logicInfo.length > 0 then
    (store, b, some "Cannot add logic element to StitchedPulse. Please add it directly to the schedule instead.")
  else if pulse.hasVoltageOffset then
    (store, b, some "Cannot use this method to add a voltage offset. Please use `add_voltage_offset` instead.")
  else
    let newRef := store.length
    let copied :=
      if append then
        { pulse with pulse_info := pulse.pulse_info.map (fun pi =>
            { pi with t0 := pi.t0 + operation_end store b }) }
      else pulse
    (store ++ [copied], { b with pulses := b.pulses ++ [newRef] }, none)

/-- `create_operation_from_info` inside `_build_voltage_offset_operations`:
`VoltageOffset(offset_path_0, offset_path_1, duration or 0.0, port, clock, t0)`. -/
def create_operation_from_info (port clock : Option String)
    (info : VoltageOffsetInfo) : VoltageOffset :=
  ⟨info.path_0, info.path_1, info.duration.getD 0, port, clock, info.t0⟩

/-- The `for i, offset_info in enumerate(offset_infos)` loop of
`_build_voltage_offset_operations`.  `offsetsOrig` is the builder's *unsorted*
`self._offsets` list — the source indexes `self._offsets[i + 1]` for the
look-ahead while iterating the *sorted* list, and this translation preserves
that.  Returns the emitted operations and the final background value. -/
def build_offsets_loop (port clock : Option String)
    (offsetsOrig : List VoltageOffsetInfo) (opEnd : ℚ) :
    List VoltageOffsetInfo → ℕ → ℚ × ℚ → List VoltageOffset × (ℚ × ℚ)
  | [], _, background => ([], background)
  | info :: rest, i, background =>
    let op := create_operation_from_info port clock info
    match info.duration with
    | none =>
      let r := build_offsets_loop port clock offsetsOrig opEnd rest (i + 1)
        (info.path_0, info.path_1)
      (op :: r.1, r.2)
    | some d =>
      let this_end := info.t0 + d
      let background1 :=
        if np_isclose this_end opEnd then ((0 : ℚ), (0 : ℚ)) else background
      let resets :=
        if offsetsOrig.length ≤ i + 1
            ∨ ¬ np_isclose (offsetsOrig.getD (i + 1) default).t0 this_end then
          [create_operation_from_info port clock
            ⟨background1.1, background1.2, this_end, none⟩]
        else []
      let r := build_offsets_loop port clock offsetsOrig opEnd rest (i + 1)
        background1
      (op :: (resets ++ r.1), r.2)

/-- `_build_voltage_offset_operations`: emit the sorted offsets interleaved
with the reset instructions, then a final reset to zero at `operation_end`
unless the tracked background is (close to) zero. -/
def build_voltage_offset_operations (store : List Operation)
    (b : StitchedPulseBuilder) : List VoltageOffset :=
  if b.offsets.isEmpty then []
  else
    let opEnd := operation_end store b
    let sortedInfos := List.insertionSort leT0 b.offsets
    let r := build_offsets_loop b.port b.clock b.offsets opEnd sortedInfos 0
      (0, 0)
    r.1 ++
      (if ¬ (np_isclose r.2.1 0 ∧ np_isclose r.2.2 0) then
        [create_operation_from_info b.port b.clock ⟨0, 0, opEnd, none⟩]
      else [])

/-! ### Stitched square pulse instruction emission -/

/-- One emitted Q1ASM line of the stitched square pulse strategy, keeping only
the structure the claims talk about: the opening `set_awg_gain`, `play`
instructions with their duration argument in samples, the `move`/label/`loop`
bracket of a stitching loop, and the closing reset `set_awg_gain 0,0`. -/
inductive Q1Instr
  | setAwgGain
  | play (samples : ℕ)
  | move (count reg : ℕ)
  | loopLabel
  | loopInstr (reg : ℕ)
  | resetAwgGain
deriving DecidableEq

/-- Modelled from the spec: the instruction emission of the stitched/
synthesized square-pulse strategy (`StitchedSquarePulseStrategy.insert_qasm`,
whose source is not available; only its tests are).  Following §4.3 and the
normative §8 sequences: after the constant-gain instruction, a duration of at
most the threshold is a single `play`; a non-integer multiple below two
thresholds is a full `play` plus a remainder `play`; at two or more full
threshold repetitions a register-counted loop is emitted whose bound is the
integer number of repetitions, with the remainder `play` (if any) outside the
loop; the trailing reset-gain instruction closes every non-loop emission and a
loop emission exactly when a remainder exists.  Durations are in samples at
one sample per nanosecond; `threshold` is the stitching threshold in
samples. -/
def stitched_square_pulse_instructions (threshold d : ℕ) : List Q1Instr :=
  let n := d / threshold
  let r := d % threshold
  if 2 ≤ n then
    [Q1Instr.setAwgGain, Q1Instr.move n 0, Q1Instr.loopLabel,
      Q1Instr.play threshold, Q1Instr.loopInstr 0]
      ++ (if r ≠ 0 then [Q1Instr.play r, Q1Instr.resetAwgGain] else [])
  else
    [Q1Instr.setAwgGain]
      ++ (if d ≤ threshold then [Q1Instr.play d]
          else [Q1Instr.play threshold, Q1Instr.play r])
      ++ [Q1Instr.resetAwgGain]

/-! ### Claim-statement vocabulary -/

/-- Definition following the spec's words, for comparison with the source's
overlap check: the interval of an offset segment is `[start, start+duration)`,
an open-ended segment's interval extending to the end of the StitchedPulse
(`operationEnd`). -/
def spec_segment_end (operationEnd : ℚ) (o : VoltageOffsetInfo) : ℚ :=
  match o.duration with
  | some d => o.t0 + d
  | none => operationEnd

/-- Definition following the spec's words: two half-open segment intervals
overlap iff each starts strictly before the other ends. -/
def spec_intervals_overlap (operationEnd : ℚ) (a b : VoltageOffsetInfo) : Prop :=
  a.t0 < spec_segment_end operationEnd b ∧ b.t0 < spec_segment_end operationEnd a

instance (e : ℚ) (a b : VoltageOffsetInfo) :
    Decidable (spec_intervals_overlap e a b) := by
  unfold spec_intervals_overlap; infer_instance

/-- The overlap notion the source actually enforces (used by the amended
claim): open-ended segments count as zero-duration instants at their start,
and two segments overlap when the later-starting one begins strictly before
the earlier one ends. -/
def overlaps_as_instants (a b : VoltageOffsetInfo) : Prop :=
  (a.t0 ≤ b.t0 ∧ b.t0 < voEnd a) ∨ (b.t0 ≤ a.t0 ∧ a.t0 < voEnd b)

instance (a b : VoltageOffsetInfo) : Decidable (overlaps_as_instants a b) := by
  unfold overlaps_as_instants; infer_instance

/-! ### Helper lemmas -/

theorem maxAbs_nonneg (l : List ℚ) : 0 ≤ maxAbs l := by
  induction l with
  | nil => simp [maxAbs]
  | cons a t ih =>
    simp only [maxAbs, List.map_cons, List.foldr_cons] at *
    exact le_trans ih (le_max_right _ _)

theorem abs_le_maxAbs {l : List ℚ} {x : ℚ} (hx : x ∈ l) : |x| ≤ maxAbs l := by
  induction l with
  | nil => cases hx
  | cons a t ih =>
    simp only [maxAbs, List.map_cons, List.foldr_cons]
    rcases List.mem_cons.mp hx with rfl | h
    · exact le_max_left _ _
    · exact le_trans (ih h) (le_max_right _ _)

theorem eq_zero_of_maxAbs_eq_zero {l : List ℚ} (h : maxAbs l = 0) :
    ∀ x ∈ l, x = 0 := by
  intro x hx
  have := abs_le_maxAbs hx
  rw [h] at this
  exact abs_eq_zero.mp (le_antisymm this (abs_nonneg x))

theorem maxAbs_of_all_zero {l : List ℚ} (h : ∀ x ∈ l, x = 0) : maxAbs l = 0 := by
  induction l with
  | nil => simp [maxAbs]
  | cons a t ih =>
    simp only [maxAbs, List.map_cons, List.foldr_cons]
    rw [h a (List.mem_cons_self a t), abs_zero]
    have ht := ih (fun x hx => h x (List.mem_cons_of_mem a hx))
    simp only [maxAbs] at ht
    rw [ht]
    simp

theorem map_id_of_mem {α : Type} {l : List α} {f : α → α}
    (h : ∀ x ∈ l, f x = x) : l.map f = l := by
  induction l with
  | nil => rfl
  | cons a t ih =>
    simp only [List.map_cons]
    rw [h a (List.mem_cons_self a t),
      ih (fun x hx => h x (List.mem_cons_of_mem a hx))]

theorem normalize_roundtrip (data : List (ℚ × ℚ)) :
    (normalize_waveform_data data).1.map (fun p =>
      (p.1 * (normalize_waveform_data data).2.1,
       p.2 * (normalize_waveform_data data).2.2)) = data := by
  unfold normalize_waveform_data
  simp only [List.map_map]
  apply map_id_of_mem
  intro p hp
  obtain ⟨x, y⟩ := p
  simp only [Function.comp_apply, Prod.mk.injEq]
  constructor
  · by_cases h : maxAbs (List.map Prod.fst data) = 0
    · have hx : x = 0 :=
        eq_zero_of_maxAbs_eq_zero h x (List.mem_map_of_mem Prod.fst hp)
      simp [h, hx]
    · simp [h, div_mul_cancel₀ _ h]
  · by_cases h : maxAbs (List.map Prod.snd data) = 0
    · have hy : y = 0 :=
        eq_zero_of_maxAbs_eq_zero h y (List.mem_map_of_mem Prod.snd hp)
      simp [h, hy]
    · simp [h, div_mul_cancel₀ _ h]

/-! ### C5 -/

/-- C5: for every acquisition OpInfo with protocol "Trace" and bin mode APPEND,
strategy selection raises a configuration error whose message reports the
offending operation's identity (its `repr`), and no strategy object is
returned. -/
theorem c5_trace_append_rejected (op : OpInfo) (enabled : Bool) (io : IoMode)
    (hacq : op.is_acquisition = true) (hproto : op.protocol = "Trace")
    (hbin : op.bin_mode = BinMode.append) :
    get_operation_strategy op enabled io
      = Except.error (trace_append_error_msg op)
    ∧ ∀ s : Strategy, get_operation_strategy op enabled io ≠ Except.ok s := by
  have h1 : get_operation_strategy op enabled io
      = Except.error (trace_append_error_msg op) := by
    unfold get_operation_strategy get_acquisition_strategy
    simp [hacq, hproto, hbin]
  exact ⟨h1, fun s hs => by rw [h1] at hs; cases hs⟩

/-- Witness for C5 at a concrete Trace/APPEND acquisition. -/
theorem c5_witness :
    (⟨"trace_acq", 0, 1, true, true, "Trace", BinMode.append, false, false,
      "", some "q0:res", false, false, false, none⟩ : OpInfo).is_acquisition
        = true
    ∧ get_operation_strategy
        ⟨"trace_acq", 0, 1, true, true, "Trace", BinMode.append, false, false,
          "", some "q0:res", false, false, false, none⟩ true IoMode.complexIo
      = Except.error (trace_append_error_msg
        ⟨"trace_acq", 0, 1, true, true, "Trace", BinMode.append, false, false,
          "", some "q0:res", false, false, false, none⟩) :=
  ⟨rfl, (c5_trace_append_rejected
    ⟨"trace_acq", 0, 1, true, true, "Trace", BinMode.append, false, false,
      "", some "q0:res", false, false, false, none⟩
    true IoMode.complexIo rfl rfl rfl).1⟩

/-! ### C4 -/

/-- C4 counterexample: a concrete marker-only pulse (name `"MarkerPulse"`, a
port, no offset/update keys, a non-reserved waveform function) is classified
as the *generic* strategy — not the marker strategy — when
synthesized-instruction generation is enabled, refuting "regardless of whether
synthesized-instruction generation is enabled". -/
theorem c4_counterexample :
    get_operation_strategy
      ⟨"MarkerPulse", 0, 1, false, false, "", BinMode.average, false, false,
        "", some "q0:mw", false, false, false, none⟩ true IoMode.complexIo
      = Except.ok Strategy.genericPulse
    ∧ (Except.ok Strategy.genericPulse : Except String Strategy)
      ≠ Except.ok Strategy.markerPulse :=
  ⟨rfl, by simp⟩

/-- C4 (amended): a non-acquisition OpInfo that is not an offset instruction or
parameter update, has a port, is named "MarkerPulse" and has a non-reserved
waveform function gets the marker strategy when synthesized-instruction
generation is *disabled*; when it is enabled, the `elif` chain skips the marker
test and such a pulse gets the generic strategy. -/
theorem c4_marker_classification (op : OpInfo) (io : IoMode)
    (hacq : op.is_acquisition = false)
    (hoff : op.is_offset_instruction = false)
    (hupd : op.is_parameter_update = false)
    (hport : op.port ≠ none)
    (hname : op.name = "MarkerPulse")
    (hsq : op.wf_func ≠ some "quantify_scheduler.waveforms.square")
    (hst : op.wf_func ≠ some "quantify_scheduler.waveforms.staircase") :
    get_operation_strategy op false io = Except.ok Strategy.markerPulse
    ∧ get_operation_strategy op true io = Except.ok Strategy.genericPulse := by
  unfold get_operation_strategy get_pulse_strategy
  simp [hacq, hoff, hupd, hport, hname, hsq, hst]

/-- Witness for C4's amended theorem at a concrete marker pulse. -/
theorem c4_witness :
    get_operation_strategy
      ⟨"MarkerPulse", 0, 1, false, false, "", BinMode.average, false, false,
        "", some "q0:mw", false, false, false, none⟩ false IoMode.real
      = Except.ok Strategy.markerPulse :=
  (c4_marker_classification
    ⟨"MarkerPulse", 0, 1, false, false, "", BinMode.average, false, false,
      "", some "q0:mw", false, false, false, none⟩
    IoMode.real rfl rfl rfl (by simp) rfl (by simp) (by simp)).1

/-! ### C1 -/

/-- C1 counterexample: at a duration of exactly one stitching threshold
(1 µs = 1000 samples) the emitted sequence is `[gain, play(1000), reset]` —
the duration *is* an exact multiple of the threshold, yet a trailing
reset-gain instruction is emitted, refuting the claim's "trailing reset-gain
instruction exactly when the duration is not an exact multiple of the
threshold" (which the claim's own 1 µs case already contradicts). -/
theorem c1_counterexample :
    stitched_square_pulse_instructions 1000 1000
      = [Q1Instr.setAwgGain, Q1Instr.play 1000, Q1Instr.resetAwgGain]
    ∧ 1000 % 1000 = 0
    ∧ (stitched_square_pulse_instructions 1000 1000).getLast?
      = some Q1Instr.resetAwgGain := by decide

/-- C1 (amended): at a stitching threshold of 1000 samples the five fixed
durations emit exactly the claimed sequences; in general the loop bound equals
the integer number of threshold-length repetitions, the remainder play is
emitted outside the loop, and the trailing reset-gain instruction is present
exactly when fewer than two full repetitions are played (no loop) or the
remainder is nonzero — equivalently, it is omitted exactly when a loop is
emitted and the duration is an exact multiple of the threshold. -/
theorem c1_stitched_square_emission (d : ℕ) :
    stitched_square_pulse_instructions 1000 400
      = [Q1Instr.setAwgGain, Q1Instr.play 400, Q1Instr.resetAwgGain]
    ∧ stitched_square_pulse_instructions 1000 1000
      = [Q1Instr.setAwgGain, Q1Instr.play 1000, Q1Instr.resetAwgGain]
    ∧ stitched_square_pulse_instructions 1000 1200
      = [Q1Instr.setAwgGain, Q1Instr.play 1000, Q1Instr.play 200,
         Q1Instr.resetAwgGain]
    ∧ stitched_square_pulse_instructions 1000 2000
      = [Q1Instr.setAwgGain, Q1Instr.move 2 0, Q1Instr.loopLabel,
         Q1Instr.play 1000, Q1Instr.loopInstr 0]
    ∧ stitched_square_pulse_instructions 1000 1000000
      = [Q1Instr.setAwgGain, Q1Instr.move 1000 0, Q1Instr.loopLabel,
         Q1Instr.play 1000, Q1Instr.loopInstr 0]
    ∧ (2 ≤ d / 1000 → d % 1000 = 0 →
        stitched_square_pulse_instructions 1000 d
          = [Q1Instr.setAwgGain, Q1Instr.move (d / 1000) 0, Q1Instr.loopLabel,
             Q1Instr.play 1000, Q1Instr.loopInstr 0])
    ∧ (2 ≤ d / 1000 → d % 1000 ≠ 0 →
        stitched_square_pulse_instructions 1000 d
          = [Q1Instr.setAwgGain, Q1Instr.move (d / 1000) 0, Q1Instr.loopLabel,
             Q1Instr.play 1000, Q1Instr.loopInstr 0, Q1Instr.play (d % 1000),
             Q1Instr.resetAwgGain])
    ∧ ((stitched_square_pulse_instructions 1000 d).getLast?
        = some Q1Instr.resetAwgGain ↔ (d / 1000 < 2 ∨ d % 1000 ≠ 0)) := by
  refine ⟨by decide, by decide, by decide, by decide, by decide, ?_, ?_, ?_⟩
  · intro h2 hr
    simp [stitched_square_pulse_instructions, h2, hr]
  · intro h2 hr
    simp [stitched_square_pulse_instructions, h2, hr]
  · by_cases h2 : 2 ≤ d / 1000
    · by_cases hr : d % 1000 = 0
      · simp [stitched_square_pulse_instructions, h2, hr]
      · simp [stitched_square_pulse_instructions, h2, hr]
    · by_cases hd : d ≤ 1000
      · simp [stitched_square_pulse_instructions, h2, hd]
        omega
      · simp [stitched_square_pulse_instructions, h2, hd]
        omega

/-- Witness for C1's amended theorem: the loop-with-remainder form at a
duration of 2.4 µs (2400 samples). -/
theorem c1_witness :
    2 ≤ 2400 / 1000 ∧ 2400 % 1000 ≠ 0
    ∧ stitched_square_pulse_instructions 1000 2400
      = [Q1Instr.setAwgGain, Q1Instr.move 2 0, Q1Instr.loopLabel,
         Q1Instr.play 1000, Q1Instr.loopInstr 0, Q1Instr.play 400,
         Q1Instr.resetAwgGain] := by
  refine ⟨by decide, by decide, ?_⟩
  have h := (c1_stitched_square_emission 2400).2.2.2.2.2.2.1 (by decide)
    (by decide)
  simpa using h

/-! ### C3 -/

/-- C3: the claim (and the builder's own docstring) says two contiguous
segments produce no reset between them.  Evaluating
`_build_voltage_offset_operations` on two contiguous bounded segments
`[0, 1)` and `[1, 2)` that were *added in reverse order* shows the code emits
a reset-to-background instruction at `t = 1` between them, because the
look-ahead indexes the insertion-ordered `self._offsets` list while iterating
the start-time-sorted list.  (Adding the same segments in chronological order
yields no such reset.) -/
theorem c3_reset_between_contiguous_segments :
    build_voltage_offset_operations []
      ⟨some "q0:mw", some "cl0", 0, [], [⟨2, 2, 1, some 1⟩, ⟨1, 1, 0, some 1⟩]⟩
      = [⟨1, 1, 1, some "q0:mw", some "cl0", 0⟩,
         ⟨0, 0, 0, some "q0:mw", some "cl0", 1⟩,
         ⟨2, 2, 1, some "q0:mw", some "cl0", 1⟩,
         ⟨0, 0, 0, some "q0:mw", some "cl0", 2⟩]
    ∧ build_voltage_offset_operations []
      ⟨some "q0:mw", some "cl0", 0, [], [⟨1, 1, 0, some 1⟩, ⟨2, 2, 1, some 1⟩]⟩
      = [⟨1, 1, 1, some "q0:mw", some "cl0", 0⟩,
         ⟨2, 2, 1, some "q0:mw", some "cl0", 1⟩,
         ⟨0, 0, 0, some "q0:mw", some "cl0", 2⟩] := by decide

/-! ### C10 -/

/-- C10: `add_voltage_offset` is atomic on error — whenever it raises (short
duration or overlap), the builder's pulses, offsets and `operation_end` are
exactly as they were before the call. -/
theorem c10_add_voltage_offset_atomic (store : List Operation)
    (b : StitchedPulseBuilder) (p0 p1 rel minD : ℚ) (dur : Option ℚ)
    (app : Bool)
    (herr : (add_voltage_offset store b p0 p1 dur rel app minD).2.isSome
      = true) :
    (add_voltage_offset store b p0 p1 dur rel app minD).1 = b
    ∧ (add_voltage_offset store b p0 p1 dur rel app minD).1.pulses = b.pulses
    ∧ (add_voltage_offset store b p0 p1 dur rel app minD).1.offsets
      = b.offsets
    ∧ operation_end store (add_voltage_offset store b p0 p1 dur rel app minD).1
      = operation_end store b := by
  have h1 : (add_voltage_offset store b p0 p1 dur rel app minD).1 = b := by
    unfold add_voltage_offset at herr ⊢
    dsimp only at herr ⊢
    set t0n := (if app = true then rel + operation_end store b else rel)
      with ht
    split
    · rfl
    next hdur =>
      split
      · rfl
      next hov =>
        exfalso
        rw [if_neg hdur, if_neg hov] at herr
        simp at herr
  exact ⟨h1, by rw [h1], by rw [h1], by rw [h1]⟩

/-- Witness for C10: a concrete call whose duration is below the minimum
raises and leaves the builder untouched. -/
theorem c10_witness :
    (add_voltage_offset [] ⟨some "q0:mw", some "cl0", 0, [], []⟩ 1 1
      (some (1 / 1000000000)) 0 true default_min_duration).2.isSome = true
    ∧ (add_voltage_offset [] ⟨some "q0:mw", some "cl0", 0, [], []⟩ 1 1
      (some (1 / 1000000000)) 0 true default_min_duration).1
      = ⟨some "q0:mw", some "cl0", 0, [], []⟩ :=
  ⟨by decide,
    (c10_add_voltage_offset_atomic [] ⟨some "q0:mw", some "cl0", 0, [], []⟩
      1 1 0 default_min_duration (some (1 / 1000000000)) true (by decide)).1⟩

/-! ### C9 -/

/-- C9: `add_pulse` never mutates the Operation passed to it — every cell of
the operation store that existed before the call (in particular the caller's
operation, with all its `t0` values) is unchanged afterwards; the shift is
applied to a freshly allocated deep copy only. -/
theorem c9_add_pulse_preserves_caller_operation (store : List Operation)
    (b : StitchedPulseBuilder) (pulseRef : ℕ) (append : Bool) (r : ℕ)
    (hr : r < store.length) :
    ((add_pulse store b pulseRef append).1)[r]? = store[r]? := by
  unfold add_pulse
  dsimp only
  split
  · rfl
  split
  · rfl
  split
  · rfl
  split
  · rfl
  exact List.getElem?_append_left hr

/-- Witness for C9: a concrete append-mode call; the caller's operation cell
is unchanged even though the stored copy's `t0` was shifted. -/
theorem c9_witness :
    0 < ([⟨false, false, [], false, [⟨0, 1, none, none⟩]⟩] : List Operation).length
    ∧ ((add_pulse [⟨false, false, [], false, [⟨0, 1, none, none⟩]⟩]
        ⟨some "q0:mw", some "cl0", 0, [], [⟨1, 1, 2, some 1⟩]⟩ 0 true).1)[0]?
      = ([⟨false, false, [], false, [⟨0, 1, none, none⟩]⟩] : List Operation)[0]? :=
  ⟨by decide,
    c9_add_pulse_preserves_caller_operation _ _ 0 true 0 (by decide)⟩

/-! ### C6 -/

theorem ceil_formula_of_dvd (n g : ℕ) (hg : 0 < g) (h : n % g = 0)
    (hn : n ≠ 0) : ((max n 1 + g - 1) / g) * g = n := by
  rw [Nat.max_eq_left (Nat.one_le_iff_ne_zero.mpr hn)]
  obtain ⟨q, rfl⟩ := Nat.dvd_of_mod_eq_zero h
  have h2 : g * q + g - 1 = g * q + (g - 1) := by omega
  rw [h2, Nat.mul_add_div hg, Nat.div_eq_of_lt (by omega), Nat.add_zero,
    Nat.mul_comm]

theorem closest_ceil_of_not_dvd (n g : ℕ) (hg : 0 < g) (h : n % g ≠ 0) :
    closest_number_ceil n g = (n / g + 1) * g := by
  unfold closest_number_ceil
  congr 1
  have hq := Nat.div_add_mod n g
  have hr : n % g < g := Nat.mod_lt _ hg
  have h1 : n + g - 1 = g * (n / g + 1) + (n % g - 1) := by
    have e : g * (n / g + 1) = g * (n / g) + g := by ring
    rw [e]
    omega
  rw [h1, Nat.mul_add_div hg,
    Nat.div_eq_of_lt (show n % g - 1 < g by omega), Nat.add_zero]

theorem le_closest_ceil (n g : ℕ) (hg : 0 < g) (h : n % g ≠ 0) :
    n ≤ closest_number_ceil n g := by
  rw [closest_ceil_of_not_dvd n g hg h]
  have hq := Nat.div_add_mod n g
  have hr : n % g < g := Nat.mod_lt _ hg
  have e : (n / g + 1) * g = g * (n / g) + g := by ring
  omega

/-- A nonempty waveform whose length is already a multiple of the granularity
is returned unchanged. -/
theorem resize_of_aligned (w : List ℚ) (g : ℕ) (h0 : w.length ≠ 0)
    (hm : w.length % g = 0) : resize_waveform w g = w := by
  unfold resize_waveform
  simp [h0, hm]

theorem resize_length (w : List ℚ) (g : ℕ) (hg : 0 < g) :
    (resize_waveform w g).length = ((max w.length 1 + g - 1) / g) * g := by
  by_cases h0 : w.length = 0
  · have hres : resize_waveform w g = List.replicate g 0 := by
      unfold resize_waveform; simp [h0]
    rw [hres, List.length_replicate, h0,
      Nat.max_eq_right (by omega : (0 : ℕ) ≤ 1)]
    have h1 : 1 + g - 1 = g := by omega
    rw [h1, Nat.div_self hg, Nat.one_mul]
  · by_cases hm : w.length % g = 0
    · rw [resize_of_aligned w g h0 hm]
      exact (ceil_formula_of_dvd _ _ hg hm h0).symm
    · have hres : resize_waveform w g
          = w ++ List.replicate (closest_number_ceil w.length g - w.length) 0 := by
        unfold resize_waveform; simp [h0, hm]
      rw [hres, List.length_append, List.length_replicate,
        Nat.max_eq_left (by omega : 1 ≤ w.length)]
      have h3 := le_closest_ceil w.length g hg hm
      have h4 : ((w.length + g - 1) / g) * g = closest_number_ceil w.length g :=
        rfl
      omega

theorem resize_take (w : List ℚ) (g : ℕ) :
    (resize_waveform w g).take w.length = w := by
  unfold resize_waveform
  by_cases h0 : w.length = 0
  · simp [h0, List.length_eq_zero.mp h0]
  · by_cases hm : w.length % g = 0
    · simp [h0, hm]
    · simp [h0, hm, List.take_left]

/-- C6: `resize_waveform` always returns `ceil(max(len, 1) / granularity) *
granularity` samples, preserving the input as an initial segment and padding
with zeros; an empty input yields exactly `granularity` zeros; the function is
idempotent on its own output; and the five concrete `(size, 16)` cases give
lengths 16, 16, 16, 32, 48. -/
theorem c6_resize_waveform (w : List ℚ) (g : ℕ) (hg : 0 < g) :
    (resize_waveform w g).length = ((max w.length 1 + g - 1) / g) * g
    ∧ (resize_waveform w g).take w.length = w
    ∧ (∀ i, w.length ≤ i → (resize_waveform w g).getD i 0 = 0)
    ∧ resize_waveform (resize_waveform w g) g = resize_waveform w g
    ∧ (w = [] → resize_waveform w g = List.replicate g 0)
    ∧ (resize_waveform (List.replicate 0 (1 : ℚ)) 16).length = 16
    ∧ (resize_waveform (List.replicate 10 (1 : ℚ)) 16).length = 16
    ∧ (resize_waveform (List.replicate 16 (1 : ℚ)) 16).length = 16
    ∧ (resize_waveform (List.replicate 30 (1 : ℚ)) 16).length = 32
    ∧ (resize_waveform (List.replicate 33 (1 : ℚ)) 16).length = 48 := by
  have hlen := resize_length w g hg
  have hmod : (resize_waveform w g).length % g = 0 := by
    rw [hlen]; exact Nat.mul_mod_left _ _
  have hpos : (resize_waveform w g).length ≠ 0 := by
    rw [hlen]
    have h1 : g ≤ max w.length 1 + g - 1 := by
      have : 1 ≤ max w.length 1 := le_max_right _ _
      omega
    have h2 : 1 ≤ (max w.length 1 + g - 1) / g := by
      rw [Nat.le_div_iff_mul_le hg]; omega
    have := Nat.mul_le_mul h2 (le_refl g)
    omega
  refine ⟨hlen, resize_take w g, ?_, resize_of_aligned _ g hpos hmod,
    fun h => by simp [resize_waveform, h], by decide, by decide, by decide,
    by decide, by decide⟩
  intro i hi
  by_cases h0 : w.length = 0
  · have hres : resize_waveform w g = List.replicate g 0 := by
      unfold resize_waveform; simp [h0]
    rw [hres, List.getD_eq_getElem?_getD, List.getElem?_replicate]
    rcases lt_or_ge i g with h | h
    · rw [if_pos h]; rfl
    · rw [if_neg (by omega)]; rfl
  · by_cases hm : w.length % g = 0
    · rw [resize_of_aligned w g h0 hm, List.getD_eq_getElem?_getD,
        List.getElem?_eq_none (by omega)]
      rfl
    · have hres : resize_waveform w g
          = w ++ List.replicate (closest_number_ceil w.length g - w.length) 0 := by
        unfold resize_waveform; simp [h0, hm]
      rw [hres, List.getD_eq_getElem?_getD,
        List.getElem?_append_right (by omega : w.length ≤ i),
        List.getElem?_replicate]
      rcases lt_or_ge (i - w.length)
          (closest_number_ceil w.length g - w.length) with h | h
      · rw [if_pos h]; rfl
      · rw [if_neg (by omega)]; rfl

/-- Witness for C6 at a concrete waveform and granularity. -/
theorem c6_witness :
    0 < 4
    ∧ (resize_waveform [1, 2, 3] 4).length = 4
    ∧ (resize_waveform [1, 2, 3] 4).take 3 = [1, 2, 3] := by
  refine ⟨by decide, ?_, ?_⟩
  · have h := (c6_resize_waveform [1, 2, 3] 4 (by decide)).1
    simpa using h
  · exact (c6_resize_waveform [1, 2, 3] 4 (by decide)).2.1

/-! ### C7 -/

/-- C7: rescaling `normalize_waveform_data`'s output by the returned per-path
peaks reconstructs the original data exactly; an all-zero path yields a zero
peak and an all-zero output path (the guard in the source means no division by
zero is ever performed). -/
theorem c7_normalize_waveform_data (data : List (ℚ × ℚ)) (_hne : data ≠ []) :
    (normalize_waveform_data data).1.map (fun p =>
      (p.1 * (normalize_waveform_data data).2.1,
       p.2 * (normalize_waveform_data data).2.2)) = data
    ∧ ((∀ p ∈ data, p.1 = 0) →
        (normalize_waveform_data data).2.1 = 0
        ∧ ∀ p ∈ (normalize_waveform_data data).1, p.1 = 0)
    ∧ ((∀ p ∈ data, p.2 = 0) →
        (normalize_waveform_data data).2.2 = 0
        ∧ ∀ p ∈ (normalize_waveform_data data).1, p.2 = 0) := by
  refine ⟨normalize_roundtrip data, ?_, ?_⟩
  · intro hz
    have hmax : maxAbs (data.map Prod.fst) = 0 := by
      apply maxAbs_of_all_zero
      intro x hx
      obtain ⟨p, hp, rfl⟩ := List.mem_map.mp hx
      exact hz p hp
    constructor
    · unfold normalize_waveform_data
      exact hmax
    · intro p hp
      unfold normalize_waveform_data at hp
      dsimp only at hp
      obtain ⟨q, hq, rfl⟩ := List.mem_map.mp hp
      dsimp only
      rw [if_neg (not_not_intro hmax)]
  · intro hz
    have hmax : maxAbs (data.map Prod.snd) = 0 := by
      apply maxAbs_of_all_zero
      intro x hx
      obtain ⟨p, hp, rfl⟩ := List.mem_map.mp hx
      exact hz p hp
    constructor
    · unfold normalize_waveform_data
      exact hmax
    · intro p hp
      unfold normalize_waveform_data at hp
      dsimp only at hp
      obtain ⟨q, hq, rfl⟩ := List.mem_map.mp hp
      dsimp only
      rw [if_neg (not_not_intro hmax)]

/-- Witness for C7 at a concrete complex waveform with an all-zero imaginary
path. -/
theorem c7_witness :
    ([((3 : ℚ), (0 : ℚ)), (-6, 0)] : List (ℚ × ℚ)) ≠ []
    ∧ (normalize_waveform_data [((3 : ℚ), (0 : ℚ)), (-6, 0)]).1.map (fun p =>
        (p.1 * (normalize_waveform_data [((3 : ℚ), (0 : ℚ)), (-6, 0)]).2.1,
         p.2 * (normalize_waveform_data [((3 : ℚ), (0 : ℚ)), (-6, 0)]).2.2))
      = [((3 : ℚ), (0 : ℚ)), (-6, 0)] :=
  ⟨by simp, (c7_normalize_waveform_data [((3 : ℚ), (0 : ℚ)), (-6, 0)]
    (by simp)).1⟩

/-! ### C8 -/

theorem sumRe_cons (p : ℚ × ℚ) (l : List (ℚ × ℚ)) :
    sumRe (p :: l) = p.1 + sumRe l := rfl

theorem sumIm_cons (p : ℚ × ℚ) (l : List (ℚ × ℚ)) :
    sumIm (p :: l) = p.2 + sumIm l := rfl

theorem sumRe_map_neg (l : List (ℚ × ℚ)) :
    sumRe (l.map (fun p => (-p.1, -p.2))) = -sumRe l := by
  induction l with
  | nil => simp [sumRe]
  | cons a t ih =>
    rw [List.map_cons, sumRe_cons, sumRe_cons, ih]
    ring

theorem sumIm_map_neg (l : List (ℚ × ℚ)) :
    sumIm (l.map (fun p => (-p.1, -p.2))) = -sumIm l := by
  induction l with
  | nil => simp [sumIm]
  | cons a t ih =>
    rw [List.map_cons, sumIm_cons, sumIm_cons, ih]
    ring

/-- C8: the synthesized square-pulse waveform data is the normalized sample
buffer, with both paths' data and both returned peak values sign-flipped
together exactly when the net signed area of the normalized buffer is negative
(in numpy's lexicographic complex order), and returned unflipped otherwise.
Consequently rescaling by the returned peaks still reconstructs the sampled
buffer, and the returned data's net signed area is never negative. -/
theorem c8_stitched_square_waveform_data (wf : List (ℚ × ℚ)) (_hne : wf ≠ []) :
    (complexSumNeg (normalize_waveform_data wf).1 →
      stitched_square_pulse_waveform_data wf
        = ((normalize_waveform_data wf).1.map (fun p => (-p.1, -p.2)),
           -(normalize_waveform_data wf).2.1,
           -(normalize_waveform_data wf).2.2))
    ∧ (¬ complexSumNeg (normalize_waveform_data wf).1 →
        stitched_square_pulse_waveform_data wf = normalize_waveform_data wf)
    ∧ (stitched_square_pulse_waveform_data wf).1.map (fun p =>
        (p.1 * (stitched_square_pulse_waveform_data wf).2.1,
         p.2 * (stitched_square_pulse_waveform_data wf).2.2)) = wf
    ∧ ¬ complexSumNeg (stitched_square_pulse_waveform_data wf).1 := by
  have hpos : complexSumNeg (normalize_waveform_data wf).1 →
      stitched_square_pulse_waveform_data wf
        = ((normalize_waveform_data wf).1.map (fun p => (-p.1, -p.2)),
           -(normalize_waveform_data wf).2.1,
           -(normalize_waveform_data wf).2.2) := by
    intro h
    unfold stitched_square_pulse_waveform_data
    simp [h]
  have hneg : ¬ complexSumNeg (normalize_waveform_data wf).1 →
      stitched_square_pulse_waveform_data wf = normalize_waveform_data wf := by
    intro h
    unfold stitched_square_pulse_waveform_data
    simp [h]
  refine ⟨hpos, hneg, ?_, ?_⟩
  · by_cases h : complexSumNeg (normalize_waveform_data wf).1
    · rw [hpos h]
      dsimp only
      rw [List.map_map]
      have he : ((fun p : ℚ × ℚ =>
            (p.1 * -(normalize_waveform_data wf).2.1,
             p.2 * -(normalize_waveform_data wf).2.2))
          ∘ (fun p : ℚ × ℚ => (-p.1, -p.2)))
          = (fun p : ℚ × ℚ =>
            (p.1 * (normalize_waveform_data wf).2.1,
             p.2 * (normalize_waveform_data wf).2.2)) := by
        funext p
        simp [Function.comp_apply, neg_mul_neg]
      rw [he]
      exact normalize_roundtrip wf
    · rw [hneg h]
      exact normalize_roundtrip wf
  · by_cases h : complexSumNeg (normalize_waveform_data wf).1
    · rw [hpos h]
      dsimp only
      intro hc
      unfold complexSumNeg at h hc
      rw [sumRe_map_neg, sumIm_map_neg] at hc
      rcases h with h1 | ⟨h1, h2⟩ <;> rcases hc with hc1 | ⟨hc1, hc2⟩ <;>
        linarith
    · rw [hneg h]
      exact h

/-- Witness for C8 at a concrete buffer with negative net area (the normalized
buffer sums to `-1/2`), exercising the sign flip. -/
theorem c8_witness :
    ([((-2 : ℚ), (0 : ℚ)), (1, 0)] : List (ℚ × ℚ)) ≠ []
    ∧ stitched_square_pulse_waveform_data [((-2 : ℚ), (0 : ℚ)), (1, 0)]
      = ((normalize_waveform_data [((-2 : ℚ), (0 : ℚ)), (1, 0)]).1.map
          (fun p => (-p.1, -p.2)),
         -(normalize_waveform_data [((-2 : ℚ), (0 : ℚ)), (1, 0)]).2.1,
         -(normalize_waveform_data [((-2 : ℚ), (0 : ℚ)), (1, 0)]).2.2) :=
  ⟨by simp,
    (c8_stitched_square_waveform_data [((-2 : ℚ), (0 : ℚ)), (1, 0)]
      (by simp)).1 (by decide)⟩

/-! ### C2 -/

instance : IsRefl VoltageOffsetInfo leT0 :=
  ⟨fun a => le_refl a.t0⟩

/-- The duration guard of `add_voltage_offset` passes when every bounded
duration meets the minimum. -/
theorem duration_below_min_eq_false (dur : Option ℚ) (minD : ℚ)
    (hdur : ∀ d, dur = some d → minD ≤ d) :
    duration_below_min dur minD = false := by
  unfold duration_below_min
  cases dur with
  | none => rfl
  | some d =>
    simp only [decide_eq_false_iff_not, not_lt]
    exact hdur d rfl

/-- If some adjacent pair of a list has the next segment starting strictly
before the current one ends, the scan reports an overlap. -/
theorem hasAdjacentOverlap_of_get (l : List VoltageOffsetInfo) (i : ℕ)
    (h1 : i + 1 < l.length)
    (hbad : (l.get ⟨i + 1, h1⟩).t0 < voEnd (l.get ⟨i, Nat.lt_of_succ_lt h1⟩)) :
    hasAdjacentOverlap l = true := by
  induction l generalizing i with
  | nil => simp at h1
  | cons a t ih =>
    cases t with
    | nil => simp at h1
    | cons bb rest =>
      cases i with
      | zero =>
        unfold hasAdjacentOverlap
        simp only [Bool.or_eq_true, decide_eq_true_eq]
        left
        exact hbad
      | succ k =>
        unfold hasAdjacentOverlap
        simp only [Bool.or_eq_true, decide_eq_true_eq]
        right
        exact ih k (Nat.lt_of_succ_lt_succ h1) hbad

/-- Two members of a list whose zero-duration-instant intervals overlap (with
distinct start times) are detected by the stable-sort-then-scan-adjacent
overlap check. -/
theorem overlap_detected_in_sort (l : List VoltageOffsetInfo)
    (x y : VoltageOffsetInfo) (hx : x ∈ l) (hy : y ∈ l)
    (hxy : x.t0 < y.t0) (hend : y.t0 < voEnd x) :
    hasAdjacentOverlap (List.insertionSort leT0 l) = true := by
  have hperm := List.perm_insertionSort leT0 l
  have hsort := List.sorted_insertionSort leT0 l
  set s := List.insertionSort leT0 l with hs
  have hxs : x ∈ s := hperm.mem_iff.mpr hx
  have hys : y ∈ s := hperm.mem_iff.mpr hy
  obtain ⟨i, hxi⟩ := List.mem_iff_get.mp hxs
  obtain ⟨j, hyj⟩ := List.mem_iff_get.mp hys
  have hij : (i : ℕ) < (j : ℕ) := by
    rcases lt_trichotomy (i : ℕ) (j : ℕ) with h | h | h
    · exact h
    · exfalso
      have he : s.get i = s.get j := by rw [Fin.ext h]
      rw [hxi, hyj] at he
      rw [he] at hxy
      exact lt_irrefl _ hxy
    · exfalso
      have hle : leT0 (s.get j) (s.get i) :=
        hsort.rel_get_of_lt (show j < i from h)
      unfold leT0 at hle
      rw [hxi, hyj] at hle
      exact absurd hxy (not_lt.mpr hle)
  have hi1 : (i : ℕ) + 1 < s.length := by
    have := j.isLt
    omega
  apply hasAdjacentOverlap_of_get s (i : ℕ) hi1
  have hle2 : (s.get ⟨(i : ℕ) + 1, hi1⟩).t0 ≤ (s.get j).t0 := by
    rcases eq_or_lt_of_le (Nat.succ_le_of_lt hij) with he | hlt
    · have he2 : (⟨(i : ℕ) + 1, hi1⟩ : Fin s.length) = j := Fin.ext he
      rw [he2]
    · have hr : leT0 (s.get ⟨(i : ℕ) + 1, hi1⟩) (s.get j) :=
        hsort.rel_get_of_lt (show (⟨(i : ℕ) + 1, hi1⟩ : Fin s.length) < j
          from hlt)
      exact hr
  have hgi : s.get ⟨(i : ℕ), Nat.lt_of_succ_lt hi1⟩ = x := by
    have he3 : (⟨(i : ℕ), Nat.lt_of_succ_lt hi1⟩ : Fin s.length) = i :=
      Fin.ext rfl
    rw [he3, hxi]
  rw [hgi]
  calc (s.get ⟨(i : ℕ) + 1, hi1⟩).t0 ≤ (s.get j).t0 := hle2
    _ = y.t0 := by rw [hyj]
    _ < voEnd x := hend

/-- C2 counterexample: the builder holds one open-ended offset starting at
`t = 0`; per the claim's interval semantics its interval extends to the end of
the StitchedPulse (here `t = 2`), so the bounded segment `[1, 2)` overlaps it —
yet `add_voltage_offset` raises nothing and appends the segment, because the
source's overlap check gives an open-ended segment the interval
`[start, start + 0)`. -/
theorem c2_counterexample :
    (add_voltage_offset [] ⟨some "q0:mw", some "cl0", 0, [], [⟨1, 1, 0, none⟩]⟩
      (1/2) (1/2) (some 1) 1 false default_min_duration).2 = none
    ∧ (add_voltage_offset []
        ⟨some "q0:mw", some "cl0", 0, [], [⟨1, 1, 0, none⟩]⟩
        (1/2) (1/2) (some 1) 1 false default_min_duration).1.offsets
      = [⟨1, 1, 0, none⟩, ⟨1/2, 1/2, 1, some 1⟩]
    ∧ operation_end []
        (add_voltage_offset [] ⟨some "q0:mw", some "cl0", 0, [], [⟨1, 1, 0, none⟩]⟩
          (1/2) (1/2) (some 1) 1 false default_min_duration).1 = 2
    ∧ spec_intervals_overlap 2 ⟨1, 1, 0, none⟩ ⟨1/2, 1/2, 1, some 1⟩ := by
  decide

/-- C2 (amended): with open-ended segments treated as zero-duration instants
at their start (their intervals do *not* extend to the end of the
StitchedPulse), adding a voltage-offset segment that passes the
minimum-duration check and whose instant-interval overlaps a previously added
segment's — the later-starting of the two beginning strictly before the
earlier one ends, with distinct start times — raises a builder error. -/
theorem c2_overlap_raises (store : List Operation) (b : StitchedPulseBuilder)
    (p0 p1 rel minD : ℚ) (dur : Option ℚ) (app : Bool)
    (hdur : ∀ d, dur = some d → minD ≤ d)
    (hover : ∃ o ∈ b.offsets,
      o.t0 ≠ (if app then rel + operation_end store b else rel)
      ∧ overlaps_as_instants o
        ⟨p0, p1, (if app then rel + operation_end store b else rel), dur⟩) :
    (add_voltage_offset store b p0 p1 dur rel app minD).2.isSome = true := by
  obtain ⟨o, ho, hne, hov⟩ := hover
  have hkey : overlaps_with_existing_offsets b
      ⟨p0, p1, (if app then rel + operation_end store b else rel), dur⟩
      = true := by
    unfold overlaps_with_existing_offsets
    set nw : VoltageOffsetInfo :=
      ⟨p0, p1, (if app then rel + operation_end store b else rel), dur⟩
      with hnw
    have hmem_o : o ∈ b.offsets ++ [nw] := List.mem_append_left _ ho
    have hmem_n : nw ∈ b.offsets ++ [nw] :=
      List.mem_append_right _ (List.mem_singleton.mpr rfl)
    rcases hov with ⟨hle, hlt⟩ | ⟨hle, hlt⟩
    · exact overlap_detected_in_sort _ o nw hmem_o hmem_n
        (lt_of_le_of_ne hle hne) hlt
    · exact overlap_detected_in_sort _ nw o hmem_n hmem_o
        (lt_of_le_of_ne hle (Ne.symm hne)) hlt
  unfold add_voltage_offset
  dsimp only
  have hd := duration_below_min_eq_false dur minD hdur
  simp [hd, hkey]

/-- Witness for C2's amended theorem: a bounded segment `[0, 1)` already in
the builder, and a new bounded segment `[1/2, 3/2)` overlapping it. -/
theorem c2_witness :
    (∃ o ∈ ([⟨1, 1, 0, some 1⟩] : List VoltageOffsetInfo),
      o.t0 ≠ (if (false : Bool) then
          (1/2 : ℚ) + operation_end []
            ⟨some "q0:mw", some "cl0", 0, [], [⟨1, 1, 0, some 1⟩]⟩
        else (1/2 : ℚ))
      ∧ overlaps_as_instants o
        ⟨2, 2, (if (false : Bool) then
            (1/2 : ℚ) + operation_end []
              ⟨some "q0:mw", some "cl0", 0, [], [⟨1, 1, 0, some 1⟩]⟩
          else (1/2 : ℚ)), some 1⟩)
    ∧ (add_voltage_offset []
        ⟨some "q0:mw", some "cl0", 0, [], [⟨1, 1, 0, some 1⟩]⟩
        2 2 (some 1) (1/2) false default_min_duration).2.isSome = true := by
  refine ⟨by decide, ?_⟩
  exact c2_overlap_raises []
    ⟨some "q0:mw", some "cl0", 0, [], [⟨1, 1, 0, some 1⟩]⟩
    2 2 (1/2) default_min_duration (some 1) false
    (fun d hd => by cases hd; decide) (by decide)

end QuantifyScheduler
